import Mathlib

/-!
Verification of the MMTk string-buffer adapter (`mmtk_gc_impl.c`) and the
YJIT runtime-support layer (`yjit.c`) of a managed-language runtime.

Shallow embedding conventions:
* heap strbufs are byte lists addressed by their index in an allocation list;
  `rb_mmtk_new_strbuf` appends a fresh zero-filled buffer and returns its index
  (the "content pointer" of the C code is modelled by that index);
* the single owning string object is modelled by the fields `strPtr`
  (`RSTRING(str)->as.heap.ptr`), `strStrbuf` (`RSTRING_EXT(str)->strbuf`) and
  `strCapa` (`RSTRING(str)->as.heap.aux.capa`) carried in the heap state;
* external collaborators (the OS `mprotect`, the Rust code generator, the
  interpreter's instruction tables, the profiling introspection calls) are
  parameters of the embedded functions.
-/

/-- Heap state for the MMTk string-buffer adapter: the list of allocated
strbufs (each a byte list) together with the owning string object's cached
content pointer, buffer-identity slot and recorded capacity. -/
structure MHeap where
  bufs : List (List Nat)
  strPtr : Nat
  strStrbuf : Nat
  strCapa : Nat
deriving DecidableEq

/-- Dereference a strbuf content pointer: the bytes of the buffer with
identity `p` (out-of-range pointers read as the empty byte list). -/
def derefBuf (h : MHeap) (p : Nat) : List Nat :=
  h.bufs.getD p []

/-- Embedding of `rb_mmtk_new_strbuf(capa)`: allocate a fresh strbuf of
`capa` bytes (fresh memory modelled as zero bytes) and return the updated
heap together with the new buffer's identity. -/
def rb_mmtk_new_strbuf (h : MHeap) (capa : Nat) : MHeap × Nat :=
  ({ h with bufs := h.bufs ++ [List.replicate capa 0] }, h.bufs.length)

/-- Embedding of `memcpy(chars, src, n)` where `chars` is the content pointer
of buffer `dst`: overwrite the first `n` bytes of `dst` with the first `n`
bytes of the source data. -/
def memcpyInto (h : MHeap) (dst : Nat) (src : List Nat) (n : Nat) : MHeap :=
  { h with bufs := h.bufs.set dst (src.take n ++ (h.bufs.getD dst []).drop n) }

/-- Embedding of `rb_mmtk_str_new_strbuf_copy_impl(str, capa, src_obj, src,
copy_size)` from `mmtk_gc_impl.c`, in source order: allocate the new strbuf,
then (if `src` is non-null) copy `copy_size` bytes from the buffer `src`
points into, and only afterwards update the owner's `as.heap.ptr` and
`strbuf` slot.  The GC pin of `src_obj` (`RB_GC_GUARD`) has no observable
effect in this GC-free embedding and is omitted. -/
def rb_mmtk_str_new_strbuf_copy_impl (h : MHeap) (capa : Nat) (src : Option Nat)
    (copy_size : Nat) : MHeap :=
  let alloc := rb_mmtk_new_strbuf h capa
  let h1 := alloc.1
  let strbuf := alloc.2
  let h2 :=
    match src with
    | none => h1
    | some p => memcpyInto h1 strbuf (derefBuf h1 p) copy_size
  { h2 with strPtr := strbuf, strStrbuf := strbuf }

/-- Embedding of `rb_mmtk_str_heap_size()`: `sizeof(struct RString) +
sizeof(rb_mmtk_stringext_t)`, with the two platform `sizeof` values as
parameters. -/
def rb_mmtk_str_heap_size (rstring_size stringext_size : Nat) : Nat :=
  rstring_size + stringext_size

/-- Embedding of `rb_mmtk_string_size_impl(size)`: clamp a requested object
size up to `rb_mmtk_str_heap_size()`. -/
def rb_mmtk_string_size_impl (rstring_size stringext_size size : Nat) : Nat :=
  if size < rb_mmtk_str_heap_size rstring_size stringext_size then
    rb_mmtk_str_heap_size rstring_size stringext_size
  else
    size

/-- Embedding of `rb_mmtk_str_sized_realloc_n_impl(str, new_size, old_size)`:
copy `min(old_size, new_size)` bytes from the owner's current buffer (the
source pointer is the owner's own `as.heap.ptr`) into a freshly attached
buffer of `new_size` bytes, then record the new capacity. -/
def rb_mmtk_str_sized_realloc_n_impl (h : MHeap) (new_size old_size : Nat) : MHeap :=
  let copy_size := if old_size < new_size then old_size else new_size
  let h1 := rb_mmtk_str_new_strbuf_copy_impl h new_size (some h.strPtr) copy_size
  { h1 with strCapa := new_size }

/-- A list extended on the right reads the same at indices inside the
original list. -/
theorem getD_append_lt {α : Type} (l l2 : List α) (i : Nat) (d : α)
    (hi : i < l.length) : (l ++ l2).getD i d = l.getD i d := by
  induction l generalizing i with
  | nil => exact absurd hi (Nat.not_lt_zero i)
  | cons a t ih =>
    cases i with
    | zero => rfl
    | succ j => exact ih j (Nat.lt_of_succ_lt_succ hi)

/-- Setting the element just past a list in a one-element extension replaces
that element. -/
theorem set_append_len {α : Type} (l : List α) (a v : α) :
    (l ++ [a]).set l.length v = l ++ [v] := by
  induction l with
  | nil => rfl
  | cons b t ih => simpa using ih

/-- Reading the element just past a list in a one-element extension yields
that element. -/
theorem getD_append_len {α : Type} (l : List α) (a d : α) :
    (l ++ [a]).getD l.length d = a := by
  induction l with
  | nil => rfl
  | cons b t ih => simpa using ih

/-- Closed form of `rb_mmtk_str_new_strbuf_copy_impl` with an in-range
source pointer: the result appends one buffer holding the copied prefix of
the source followed by fresh zero bytes, and points the owner at it. -/
theorem rb_mmtk_str_new_strbuf_copy_impl_eq (h : MHeap) (capa p cs : Nat)
    (hp : p < h.bufs.length) :
    rb_mmtk_str_new_strbuf_copy_impl h capa (some p) cs
      = { bufs := h.bufs
            ++ [(h.bufs.getD p []).take cs ++ List.replicate (capa - cs) 0],
          strPtr := h.bufs.length, strStrbuf := h.bufs.length,
          strCapa := h.strCapa } := by
  simp only [rb_mmtk_str_new_strbuf_copy_impl, rb_mmtk_new_strbuf, memcpyInto, derefBuf]
  rw [set_append_len, getD_append_len, getD_append_lt h.bufs _ p [] hp,
    List.drop_replicate]

/-- C1: in `rb_mmtk_str_new_strbuf_copy_impl` with a non-null source pointer,
all `copy_size` source bytes are copied into the newly allocated buffer
before the owner's cached content pointer and buffer-identity slot are
mutated: the new buffer's first `copy_size` bytes equal the source's
pre-call bytes, and sourcing the copy from the owner's own current buffer
(the self-copy/realloc case) produces exactly the same heap as sourcing it
from a distinct buffer with the same contents. -/
theorem rb_mmtk_str_new_strbuf_copy_impl_self_alias (h : MHeap)
    (capa copy_size q : Nat)
    (hp : h.strPtr < h.bufs.length) (hqlt : q < h.bufs.length)
    (hq : derefBuf h q = derefBuf h h.strPtr)
    (hlen : copy_size ≤ (derefBuf h h.strPtr).length) :
    (derefBuf (rb_mmtk_str_new_strbuf_copy_impl h capa (some h.strPtr) copy_size)
        (rb_mmtk_str_new_strbuf_copy_impl h capa (some h.strPtr) copy_size).strPtr).take
          copy_size
      = (derefBuf h h.strPtr).take copy_size
    ∧ rb_mmtk_str_new_strbuf_copy_impl h capa (some q) copy_size
      = rb_mmtk_str_new_strbuf_copy_impl h capa (some h.strPtr) copy_size := by
  constructor
  · rw [rb_mmtk_str_new_strbuf_copy_impl_eq h capa h.strPtr copy_size hp]
    simp only [derefBuf, getD_append_len]
    rw [List.take_append_of_le_length]
    · rw [List.take_take, Nat.min_self]
    · rw [List.length_take]
      exact Nat.le_min.mpr ⟨Nat.le_refl _, hlen⟩
  · rw [rb_mmtk_str_new_strbuf_copy_impl_eq h capa h.strPtr copy_size hp,
      rb_mmtk_str_new_strbuf_copy_impl_eq h capa q copy_size hqlt]
    have hqd : h.bufs.getD q [] = h.bufs.getD h.strPtr [] := hq
    rw [hqd]

/-- Concrete MMTk heap used by the witnesses: one strbuf holding bytes
`[1, 2, 3]`, owned by the string object. -/
def h0ex : MHeap :=
  { bufs := [[1, 2, 3]], strPtr := 0, strStrbuf := 0, strCapa := 3 }

/-- Witness for C1 at a concrete heap: growing the 3-byte buffer `[1, 2, 3]`
to capacity 4 while copying 2 bytes from the owner's own buffer. -/
theorem rb_mmtk_str_new_strbuf_copy_impl_self_alias_witness :
    (derefBuf (rb_mmtk_str_new_strbuf_copy_impl h0ex 4 (some h0ex.strPtr) 2)
        (rb_mmtk_str_new_strbuf_copy_impl h0ex 4 (some h0ex.strPtr) 2).strPtr).take 2
      = (derefBuf h0ex h0ex.strPtr).take 2
    ∧ rb_mmtk_str_new_strbuf_copy_impl h0ex 4 (some 0) 2
      = rb_mmtk_str_new_strbuf_copy_impl h0ex 4 (some h0ex.strPtr) 2 :=
  rb_mmtk_str_new_strbuf_copy_impl_self_alias h0ex 4 2 0 (by decide) (by decide)
    (by decide) (by decide)

/-- C3: `rb_mmtk_str_sized_realloc_n_impl` copies exactly
`min(old_size, new_size)` bytes from the old buffer into the new one — in
particular, when `new_size < old_size` the trailing bytes are dropped
silently (the function is total, there is no error path) — and the owner's
recorded capacity equals `new_size` afterwards. -/
theorem rb_mmtk_str_sized_realloc_n_impl_spec (h : MHeap) (new_size old_size : Nat)
    (hp : h.strPtr < h.bufs.length)
    (hold : (derefBuf h h.strPtr).length = old_size) :
    derefBuf (rb_mmtk_str_sized_realloc_n_impl h new_size old_size)
        (rb_mmtk_str_sized_realloc_n_impl h new_size old_size).strPtr
      = (derefBuf h h.strPtr).take (min old_size new_size)
        ++ List.replicate (new_size - min old_size new_size) 0
    ∧ (rb_mmtk_str_sized_realloc_n_impl h new_size old_size).strCapa = new_size := by
  have hmin : (if old_size < new_size then old_size else new_size)
      = min old_size new_size := by
    rcases Nat.lt_or_ge old_size new_size with hlt | hge
    · simp [hlt, Nat.min_eq_left (Nat.le_of_lt hlt)]
    · simp [Nat.not_lt.mpr hge, Nat.min_eq_right hge]
  constructor
  · simp only [rb_mmtk_str_sized_realloc_n_impl, hmin,
      rb_mmtk_str_new_strbuf_copy_impl_eq h new_size h.strPtr _ hp]
    simp [derefBuf, getD_append_len]
  · rfl

/-- Witness for C3 at a concrete heap: shrinking the 3-byte buffer
`[1, 2, 3]` to 2 bytes keeps the first 2 bytes, drops the last one, and
records capacity 2. -/
theorem rb_mmtk_str_sized_realloc_n_impl_spec_witness :
    derefBuf (rb_mmtk_str_sized_realloc_n_impl h0ex 2 3)
        (rb_mmtk_str_sized_realloc_n_impl h0ex 2 3).strPtr
      = (derefBuf h0ex h0ex.strPtr).take (min 3 2)
        ++ List.replicate (2 - min 3 2) 0
    ∧ (rb_mmtk_str_sized_realloc_n_impl h0ex 2 3).strCapa = 2 :=
  rb_mmtk_str_sized_realloc_n_impl_spec h0ex 2 3 (by decide) (by decide)

/-- C8: `rb_mmtk_string_size_impl` returns the requested size when it is at
least the fixed minimum `rb_mmtk_str_heap_size()` (the object header plus
the fixed-size extension field), returns exactly that minimum when the
request is smaller, and hence never returns a value below the minimum. -/
theorem rb_mmtk_string_size_impl_spec (rstring_size stringext_size size : Nat) :
    (rb_mmtk_str_heap_size rstring_size stringext_size ≤ size →
        rb_mmtk_string_size_impl rstring_size stringext_size size = size)
    ∧ (size < rb_mmtk_str_heap_size rstring_size stringext_size →
        rb_mmtk_string_size_impl rstring_size stringext_size size
          = rb_mmtk_str_heap_size rstring_size stringext_size)
    ∧ rb_mmtk_str_heap_size rstring_size stringext_size
        ≤ rb_mmtk_string_size_impl rstring_size stringext_size size := by
  refine ⟨fun hge => ?_, fun hlt => ?_, ?_⟩
  · simp [rb_mmtk_string_size_impl, Nat.not_lt.mpr hge]
  · simp [rb_mmtk_string_size_impl, hlt]
  · by_cases hlt : size < rb_mmtk_str_heap_size rstring_size stringext_size
    · simp [rb_mmtk_string_size_impl, hlt]
    · simp [rb_mmtk_string_size_impl, hlt]
      exact Nat.not_lt.mp hlt

/-- Witness for C8 at concrete sizes: with header size 24 and extension
size 16 (minimum 40), a request of 8 is clamped to 40 and a request of 48
is returned unchanged. -/
theorem rb_mmtk_string_size_impl_spec_witness :
    rb_mmtk_string_size_impl 24 16 8 = rb_mmtk_str_heap_size 24 16
    ∧ rb_mmtk_string_size_impl 24 16 48 = 48 :=
  ⟨(rb_mmtk_string_size_impl_spec 24 16 8).2.1 (by decide),
   (rb_mmtk_string_size_impl_spec 24 16 48).1 (by decide)⟩

/-- Protection value passed to the OS page-protection call: read+write
(`PROT_READ | PROT_WRITE`) or read+execute (`PROT_READ | PROT_EXEC`). -/
inductive Prot where
  | rw : Prot
  | rx : Prot
deriving DecidableEq

/-- Outcome of a call that either returns normally or aborts the process
(`rb_bug`). -/
inductive ExecOutcome where
  | ok : ExecOutcome
  | fatal : ExecOutcome
deriving DecidableEq

/-- Embedding of `rb_yjit_mark_writable(mem_block, mem_size)`: one
`mprotect` call with read+write protection; an OS failure (the oracle
`mFail` models `mprotect` returning nonzero) is reported as `false`.  The
second component records the `mprotect` calls issued. -/
def rb_yjit_mark_writable (mFail : Nat → Nat → Prot → Bool)
    (mem_block mem_size : Nat) : Bool × List (Nat × Nat × Prot) :=
  if mFail mem_block mem_size Prot.rw then
    (false, [(mem_block, mem_size, Prot.rw)])
  else
    (true, [(mem_block, mem_size, Prot.rw)])

/-- Embedding of `rb_yjit_mark_executable(mem_block, mem_size)`: when
`mem_size` is zero the function returns at once without calling `mprotect`;
otherwise one read+execute `mprotect` call is issued and an OS failure is a
process-fatal `rb_bug` (there is no error return value — the C function
returns `void`).  The second component records the `mprotect` calls
issued. -/
def rb_yjit_mark_executable (mFail : Nat → Nat → Prot → Bool)
    (mem_block mem_size : Nat) : ExecOutcome × List (Nat × Nat × Prot) :=
  if mem_size = 0 then
    (ExecOutcome.ok, [])
  else if mFail mem_block mem_size Prot.rx then
    (ExecOutcome.fatal, [(mem_block, mem_size, Prot.rx)])
  else
    (ExecOutcome.ok, [(mem_block, mem_size, Prot.rx)])

/-- C4: `rb_yjit_mark_executable` with region size zero returns without
invoking the underlying `mprotect` call (the recorded call list is empty)
and without failing (the outcome is `ok`), for any block address and any
behaviour of the OS call. -/
theorem rb_yjit_mark_executable_zero_size (mFail : Nat → Nat → Prot → Bool)
    (mem_block : Nat) :
    rb_yjit_mark_executable mFail mem_block 0 = (ExecOutcome.ok, []) := by
  simp [rb_yjit_mark_executable]

/-- C5: a failure of the OS page-protection call while marking a region
writable is reported to the caller as the boolean result `false` (and
success as `true`), whereas marking a non-empty region executable is
process-fatal exactly when the OS call fails, and on the executable path no
error value is ever returned (the outcome type has only normal return and
process abort). -/
theorem rb_yjit_mark_protection_failure_policy (mFail : Nat → Nat → Prot → Bool)
    (mem_block mem_size : Nat) :
    (rb_yjit_mark_writable mFail mem_block mem_size).1
        = !mFail mem_block mem_size Prot.rw
    ∧ ((rb_yjit_mark_executable mFail mem_block mem_size).1 = ExecOutcome.fatal
        ↔ mem_size ≠ 0 ∧ mFail mem_block mem_size Prot.rx = true) := by
  constructor
  · by_cases hf : mFail mem_block mem_size Prot.rw
    · simp [rb_yjit_mark_writable, hf]
    · simp [rb_yjit_mark_writable, hf]
  · by_cases hz : mem_size = 0
    · simp [rb_yjit_mark_executable, hz]
    · by_cases hf : mFail mem_block mem_size Prot.rx
      · simp [rb_yjit_mark_executable, hz, hf]
      · simp [rb_yjit_mark_executable, hz, hf]

/-- VM state observed by `rb_yjit_compile_iseq`: the recursion depth of the
process-wide VM lock (the synchronization gate) and the target iseq's
`body->jit_func` slot (`0` is the null function pointer). -/
structure VMState where
  lockLevel : Nat
  jit_func : Nat
deriving DecidableEq

/-- Embedding of `rb_yjit_compile_iseq(iseq, ec)`: enter the VM lock and
barrier (`RB_VM_LOCK_ENTER(); rb_vm_barrier()`), invoke the external Rust
code generator `rb_yjit_iseq_gen_entry_point` — its result is the parameter
`code_ptr`, with `0` as the null pointer — install or clear
`iseq->body->jit_func` accordingly, then leave the VM lock
(`RB_VM_LOCK_LEAVE()`) and return the success flag. -/
def rb_yjit_compile_iseq (code_ptr : Nat) (s : VMState) : Bool × VMState :=
  let s1 : VMState := { s with lockLevel := s.lockLevel + 1 }
  if code_ptr ≠ 0 then
    (true, { s1 with jit_func := code_ptr, lockLevel := s1.lockLevel - 1 })
  else
    (false, { s1 with jit_func := 0, lockLevel := s1.lockLevel - 1 })

/-- C2: `rb_yjit_compile_iseq` installs a non-null generator result as the
iseq's `jit_func` and returns `true`; on a null generator result it sets
`jit_func` to null and returns `false`; and on both paths the VM lock
acquired at entry is released before returning (the lock recursion level of
the returned state equals the entry level). -/
theorem rb_yjit_compile_iseq_spec (code_ptr : Nat) (s : VMState) :
    (code_ptr ≠ 0 →
        (rb_yjit_compile_iseq code_ptr s).2.jit_func = code_ptr
        ∧ (rb_yjit_compile_iseq code_ptr s).1 = true)
    ∧ (code_ptr = 0 →
        (rb_yjit_compile_iseq code_ptr s).2.jit_func = 0
        ∧ (rb_yjit_compile_iseq code_ptr s).1 = false)
    ∧ (rb_yjit_compile_iseq code_ptr s).2.lockLevel = s.lockLevel := by
  refine ⟨fun hnz => ?_, fun hz => ?_, ?_⟩
  · simp [rb_yjit_compile_iseq, hnz]
  · simp [rb_yjit_compile_iseq, hz]
  · by_cases hz : code_ptr = 0
    · simp [rb_yjit_compile_iseq, hz]
    · simp [rb_yjit_compile_iseq, hz]

/-- Witness for C2 at concrete inputs: a generator result of `7` is
installed with `true`, a null generator result clears the slot with
`false`, both from lock level `0`. -/
theorem rb_yjit_compile_iseq_spec_witness :
    ((rb_yjit_compile_iseq 7 ⟨0, 0⟩).2.jit_func = 7
      ∧ (rb_yjit_compile_iseq 7 ⟨0, 0⟩).1 = true)
    ∧ ((rb_yjit_compile_iseq 0 ⟨0, 5⟩).2.jit_func = 0
      ∧ (rb_yjit_compile_iseq 0 ⟨0, 5⟩).1 = false) :=
  ⟨(rb_yjit_compile_iseq_spec 7 ⟨0, 0⟩).1 (by decide),
   (rb_yjit_compile_iseq_spec 0 ⟨0, 5⟩).2.1 (by decide)⟩

/-- One object slot visited by the heap walk: its address and whether
`rb_obj_is_iseq` holds for it. -/
structure HeapObj where
  addr : Nat
  is_iseq : Bool
deriving DecidableEq

/-- Embedding of the heap-walk callback `for_each_iseq_i(vstart, vend,
stride, data)`: the region `[vstart, vend)` traversed by `stride` is the
object list; `poison` gives each address's instrumentation poison state.
For each object, in source order: query the poison state
(`asan_poisoned_object_p`), unpoison (`asan_unpoison_object`), invoke the
callback when the object is an iseq (recorded in the returned list), and
restore the prior poison state (`asan_poison_object_if`).  The result is
the final poison state and the list of callback invocations. -/
def for_each_iseq_i (poison : Nat → Bool) : List HeapObj → (Nat → Bool) × List Nat
  | [] => (poison, [])
  | obj :: rest =>
    let ptr := poison obj.addr
    let p1 : Nat → Bool := fun x => if x = obj.addr then false else poison x
    let p2 : Nat → Bool := fun x => if x = obj.addr then ptr else p1 x
    let r := for_each_iseq_i p2 rest
    (r.1, (if obj.is_iseq then [obj.addr] else []) ++ r.2)

/-- C6: after the heap walk of `for_each_iseq_i`, every object's
instrumentation poison state equals its state before the walk (a poisoned
object is re-poisoned, an unpoisoned one stays unpoisoned), and the user
callback is invoked exactly once for each visited object that is an iseq —
in visit order — and for no other object. -/
theorem for_each_iseq_i_spec (poison : Nat → Bool) (objs : List HeapObj) :
    (∀ a, (for_each_iseq_i poison objs).1 a = poison a)
    ∧ (for_each_iseq_i poison objs).2
        = (objs.filter (fun o => o.is_iseq)).map (fun o => o.addr) := by
  induction objs generalizing poison with
  | nil => exact ⟨fun a => rfl, rfl⟩
  | cons obj rest ih =>
    have hfun : (fun x => if x = obj.addr then poison obj.addr
        else if x = obj.addr then false else poison x) = poison := by
      funext x
      by_cases hx : x = obj.addr
      · simp [hx]
      · simp [hx]
    constructor
    · intro a
      simp only [for_each_iseq_i, hfun]
      exact (ih poison).1 a
    · simp only [for_each_iseq_i, hfun, (ih poison).2]
      by_cases hi : obj.is_iseq
      · simp [hi]
      · simp [hi]

/-- Interpreter instruction tables used by the leaf-builtin detection, all
external to `yjit.c`: `insn_len`, `rb_vm_insn_addr2opcode`, and the two
opcode numbers `BIN(opt_invokebuiltin_delegate_leave)` and `BIN(leave)`. -/
structure InsnEnv where
  insn_len : Nat → Nat
  addr2opcode : Nat → Nat
  bin_opt_invokebuiltin_delegate_leave : Nat
  bin_leave : Nat

/-- The fields of `iseq->body` read by the leaf-builtin detection: the
encoded size `iseq_size`, the encoded instruction words `iseq_encoded`
(out-of-range reads default to `0`), and the `builtin_inline_p` flag. -/
structure IseqBody where
  iseq_size : Nat
  iseq_encoded : List Nat
  builtin_inline_p : Bool
deriving DecidableEq

/-- Embedding of `rb_leaf_invokebuiltin_iseq_p(iseq)` from `yjit.c`: the
encoded size equals `insn_len(opt_invokebuiltin_delegate_leave) +
insn_len(leave)`, the opcode at index `0` is
`opt_invokebuiltin_delegate_leave`, the opcode right after that
instruction is `leave`, and `body->builtin_inline_p` is set. -/
def rb_leaf_invokebuiltin_iseq_p (env : InsnEnv) (body : IseqBody) : Bool :=
  let invokebuiltin_len := env.insn_len env.bin_opt_invokebuiltin_delegate_leave
  let leave_len := env.insn_len env.bin_leave
  decide (body.iseq_size = invokebuiltin_len + leave_len)
    && decide (env.addr2opcode (body.iseq_encoded.getD 0 0)
        = env.bin_opt_invokebuiltin_delegate_leave)
    && decide (env.addr2opcode (body.iseq_encoded.getD invokebuiltin_len 0)
        = env.bin_leave)
    && body.builtin_inline_p

/-- Embedding of `rb_leaf_builtin_function(iseq)`: the builtin-function
descriptor stored as the first operand (`iseq_encoded[1]`) when the leaf
detection succeeds, the null pointer (`0`) otherwise. -/
def rb_leaf_builtin_function (env : InsnEnv) (body : IseqBody) : Nat :=
  if rb_leaf_invokebuiltin_iseq_p env body then body.iseq_encoded.getD 1 0 else 0

/-- Stated from the claim's words, for comparison with the source function:
the instruction sequence consists solely of one
`opt_invokebuiltin_delegate_leave` immediately followed by `leave`, with
the encoded size equal to the sum of those two instruction lengths.  Note
this says nothing about `builtin_inline_p`. -/
def leafInvokebuiltinShape (env : InsnEnv) (body : IseqBody) : Prop :=
  body.iseq_size
      = env.insn_len env.bin_opt_invokebuiltin_delegate_leave
        + env.insn_len env.bin_leave
    ∧ env.addr2opcode (body.iseq_encoded.getD 0 0)
        = env.bin_opt_invokebuiltin_delegate_leave
    ∧ env.addr2opcode
          (body.iseq_encoded.getD (env.insn_len env.bin_opt_invokebuiltin_delegate_leave) 0)
        = env.bin_leave

/-- Concrete instruction environment for the C7 counterexample: every
instruction has length `1`, instruction addresses decode to themselves, and
the two relevant opcodes are `0` and `1`. -/
def insnEnvEx : InsnEnv :=
  { insn_len := fun _ => 1
    addr2opcode := fun a => a
    bin_opt_invokebuiltin_delegate_leave := 0
    bin_leave := 1 }

/-- Concrete iseq body for the C7 counterexample: exactly one
`opt_invokebuiltin_delegate_leave` followed by `leave` with the right
encoded size, but with `builtin_inline_p` cleared. -/
def iseqBodyNoInline : IseqBody :=
  { iseq_size := 2, iseq_encoded := [0, 1], builtin_inline_p := false }

/-- Counterexample to C7 as stated: a code unit whose instruction sequence
is exactly one `opt_invokebuiltin_delegate_leave` followed by `leave` with
the matching encoded size, yet `rb_leaf_invokebuiltin_iseq_p` returns
`false` because `builtin_inline_p` is cleared — so the "if" direction of
the claimed equivalence fails. -/
theorem rb_leaf_invokebuiltin_iseq_p_counterexample :
    leafInvokebuiltinShape insnEnvEx iseqBodyNoInline
    ∧ rb_leaf_invokebuiltin_iseq_p insnEnvEx iseqBodyNoInline = false :=
  ⟨⟨rfl, rfl, rfl⟩, rfl⟩

/-- C7 (amended): `rb_leaf_invokebuiltin_iseq_p` returns `true` iff the
instruction sequence consists solely of one
`opt_invokebuiltin_delegate_leave` immediately followed by `leave` with the
encoded size equal to the sum of the two instruction lengths AND the code
unit's `builtin_inline_p` flag is set; and `rb_leaf_builtin_function`
returns the builtin-function descriptor stored as the first operand when
the detection succeeds and the null pointer otherwise. -/
theorem rb_leaf_invokebuiltin_iseq_p_spec (env : InsnEnv) (body : IseqBody) :
    (rb_leaf_invokebuiltin_iseq_p env body = true
        ↔ leafInvokebuiltinShape env body ∧ body.builtin_inline_p = true)
    ∧ (rb_leaf_invokebuiltin_iseq_p env body = true →
        rb_leaf_builtin_function env body = body.iseq_encoded.getD 1 0)
    ∧ (rb_leaf_invokebuiltin_iseq_p env body = false →
        rb_leaf_builtin_function env body = 0) := by
  refine ⟨?_, fun ht => ?_, fun hf => ?_⟩
  · simp [rb_leaf_invokebuiltin_iseq_p, leafInvokebuiltinShape, and_assoc]
  · simp [rb_leaf_builtin_function, ht]
  · simp [rb_leaf_builtin_function, hf]

/-- Witness for C7 (amended) at a concrete code unit: with
`builtin_inline_p` set the detection succeeds and the descriptor operand
(`1`, the word at index `1`) is returned; on `iseqBodyNoInline` the
detection fails and the null pointer is returned. -/
theorem rb_leaf_invokebuiltin_iseq_p_spec_witness :
    rb_leaf_builtin_function insnEnvEx
        { iseq_size := 2, iseq_encoded := [0, 1], builtin_inline_p := true } = 1
    ∧ rb_leaf_builtin_function insnEnvEx iseqBodyNoInline = 0 :=
  ⟨(rb_leaf_invokebuiltin_iseq_p_spec insnEnvEx
      { iseq_size := 2, iseq_encoded := [0, 1], builtin_inline_p := true }).2.1 rfl,
   (rb_leaf_invokebuiltin_iseq_p_spec insnEnvEx iseqBodyNoInline).2.2 rfl⟩

/-- External profiling introspection calls used by `rb_yjit_add_frame`:
`rb_profile_frame_full_label`, `rb_profile_frame_absolute_path` (which may
return nil, modelled as `none`), `rb_profile_frame_path` and
`rb_profile_frame_first_lineno`.  Frames and the returned Ruby values are
identified by numbers. -/
structure ProfileEnv where
  full_label : Nat → Nat
  absolute_path : Nat → Option Nat
  path : Nat → Nat
  first_lineno : Nat → Int

/-- One record of the exported `frames` mapping: display name, source file,
the two sample counters, the nested `edges` and `lines` mappings, and the
optional first line number. -/
structure FrameInfo where
  name : Nat
  file : Nat
  samples : Nat
  total_samples : Nat
  edges : List (Nat × Nat)
  line_hash : List (Nat × Nat)
  line : Option Int
deriving DecidableEq

/-- Embedding of `rb_hash_aref(hash, key)` over an insertion-ordered
association list: the value bound to the first occurrence of `key`, or
`none` (nil) when absent. -/
def hashAref (h : List (Nat × FrameInfo)) (k : Nat) : Option FrameInfo :=
  match h with
  | [] => none
  | (k', v) :: rest => if k' = k then some v else hashAref rest k

/-- Embedding of `rb_yjit_add_frame(hash, frame)`: if the frame identity is
already bound in the hash (`RTEST(rb_hash_aref(...))`, always truthy here
because every stored value is a hash), return the hash unchanged; otherwise
bind it to a fresh record whose `samples` and `total_samples` counters are
`0`, whose `edges` and `lines` mappings are empty, and whose name, file and
line come from the profiling introspection calls. -/
def rb_yjit_add_frame (env : ProfileEnv) (hash : List (Nat × FrameInfo))
    (frame : Nat) : List (Nat × FrameInfo) :=
  if (hashAref hash frame).isSome then
    hash
  else
    let name := env.full_label frame
    let file :=
      match env.absolute_path frame with
      | some f => f
      | none => env.path frame
    let line := env.first_lineno frame
    hash ++ [(frame,
      { name := name, file := file, samples := 0, total_samples := 0,
        edges := [], line_hash := [],
        line := if line ≠ 0 then some line else none })]

/-- The three collections built by `rb_yjit_exit_locations_dict`: the `raw`
array, the parallel `lines` array, and the `frames` hash. -/
structure ExitLocationsDict where
  raw_samples : List Nat
  line_samples : List Int
  frames : List (Nat × FrameInfo)
deriving DecidableEq

/-- Inner loop of `rb_yjit_exit_locations_dict` (`for (o = 0; o < num; o++)`):
for each of `num` consecutive indices starting at `idx`, add the frame at
`yjit_raw_samples[idx]` to the frames hash and push the raw word and its
line onto the two parallel arrays. -/
def processFrames (env : ProfileEnv) (raw : List Nat) (lines : List Int) :
    Nat → Nat → ExitLocationsDict → ExitLocationsDict
  | _, 0, st => st
  | idx, num + 1, st =>
    let frame := raw.getD idx 0
    let st1 : ExitLocationsDict :=
      { frames := rb_yjit_add_frame env st.frames frame,
        raw_samples := st.raw_samples ++ [frame],
        line_samples := st.line_samples ++ [lines.getD idx 0] }
    processFrames env raw lines (idx + 1) num st1

/-- Outer loop of `rb_yjit_exit_locations_dict` (`while (idx < samples_len)`):
read the stack depth `num` at `idx` and push it with its line, run the inner
frame loop over the next `num` words, push the two trailing words of the
sample record with their lines, and continue at `idx + num + 3`. -/
def exitLocationsLoop (env : ProfileEnv) (raw : List Nat) (lines : List Int)
    (samples_len : Nat) (idx : Nat) (st : ExitLocationsDict) : ExitLocationsDict :=
  if idx < samples_len then
    let num := raw.getD idx 0
    let st1 : ExitLocationsDict :=
      { st with raw_samples := st.raw_samples ++ [num],
                line_samples := st.line_samples ++ [lines.getD idx 0] }
    let st2 := processFrames env raw lines (idx + 1) num st1
    let st3 : ExitLocationsDict :=
      { st2 with raw_samples := st2.raw_samples ++ [raw.getD (idx + 1 + num) 0],
                 line_samples := st2.line_samples ++ [lines.getD (idx + 1 + num) 0] }
    let st4 : ExitLocationsDict :=
      { st3 with raw_samples := st3.raw_samples ++ [raw.getD (idx + num + 2) 0],
                 line_samples := st3.line_samples ++ [lines.getD (idx + num + 2) 0] }
    exitLocationsLoop env raw lines samples_len (idx + num + 3) st4
  else
    st
termination_by samples_len - idx
decreasing_by
  omega

/-- Embedding of `rb_yjit_exit_locations_dict(yjit_raw_samples,
yjit_line_samples, samples_len)`: run the sample-parsing loop starting from
three empty collections. -/
def rb_yjit_exit_locations_dict (env : ProfileEnv) (raw : List Nat)
    (lines : List Int) (samples_len : Nat) : ExitLocationsDict :=
  exitLocationsLoop env raw lines samples_len 0
    { raw_samples := [], line_samples := [], frames := [] }

/-- Frame identities handed to `rb_yjit_add_frame` by one inner loop run:
the `num` raw words starting at `idx`. -/
def observedInner (raw : List Nat) : Nat → Nat → List Nat
  | _, 0 => []
  | idx, num + 1 => raw.getD idx 0 :: observedInner raw (idx + 1) num

/-- Frame identities observed across all stack samples: the concatenation,
over the sample records parsed by the outer loop, of the frame words of
each record. -/
def observedFrames (raw : List Nat) (samples_len : Nat) (idx : Nat) : List Nat :=
  if idx < samples_len then
    let num := raw.getD idx 0
    observedInner raw (idx + 1) num ++ observedFrames raw samples_len (idx + num + 3)
  else
    []
termination_by samples_len - idx
decreasing_by
  omega

/-- A binding found in a hash is still found after appending entries on the
right. -/
theorem hashAref_append_of_some (h h2 : List (Nat × FrameInfo)) (g : Nat)
    (i : FrameInfo) (hg : hashAref h g = some i) :
    hashAref (h ++ h2) g = some i := by
  induction h with
  | nil => simp [hashAref] at hg
  | cons p t ih =>
    obtain ⟨k, v⟩ := p
    by_cases hk : k = g
    · simp only [hashAref, List.cons_append, if_pos hk] at hg ⊢
      exact hg
    · simp only [hashAref, List.cons_append, if_neg hk] at hg ⊢
      exact ih hg

/-- A key absent from a hash is looked up in the appended entries. -/
theorem hashAref_append_of_none (h h2 : List (Nat × FrameInfo)) (g : Nat)
    (hg : hashAref h g = none) : hashAref (h ++ h2) g = hashAref h2 g := by
  induction h with
  | nil => rfl
  | cons p t ih =>
    obtain ⟨k, v⟩ := p
    by_cases hk : k = g
    · simp [hashAref, hk] at hg
    · simp only [hashAref, List.cons_append, if_neg hk] at hg ⊢
      exact ih hg

/-- A hash lookup fails exactly when the key is not among the stored keys. -/
theorem hashAref_eq_none_iff (h : List (Nat × FrameInfo)) (g : Nat) :
    hashAref h g = none ↔ g ∉ h.map Prod.fst := by
  induction h with
  | nil => simp [hashAref]
  | cons p t ih =>
    obtain ⟨k, v⟩ := p
    by_cases hk : k = g
    · simp [hashAref, hk]
    · simp [hashAref, hk, ih, Ne.symm hk]

/-- Adding a frame makes exactly that key present, besides the existing
keys. -/
theorem rb_yjit_add_frame_aref_isSome (env : ProfileEnv)
    (h : List (Nat × FrameInfo)) (f g : Nat) :
    (hashAref (rb_yjit_add_frame env h f) g).isSome
      ↔ g = f ∨ (hashAref h g).isSome := by
  unfold rb_yjit_add_frame
  by_cases hf : (hashAref h f).isSome
  · simp only [if_pos hf]
    exact ⟨Or.inr, fun hor => hor.elim (fun he => he ▸ hf) id⟩
  · simp only [if_neg hf]
    cases hg : hashAref h g with
    | some i =>
      rw [hashAref_append_of_some h _ g i hg]
      simp
    | none =>
      rw [hashAref_append_of_none h _ g hg]
      by_cases hgf : f = g
      · simp [hashAref, hgf]
      · simp [hashAref, hgf, Ne.symm hgf, hg]

/-- Adding a frame never overwrites an existing binding: any binding present
before `rb_yjit_add_frame` is unchanged after it. -/
theorem rb_yjit_add_frame_preserves (env : ProfileEnv)
    (h : List (Nat × FrameInfo)) (f g : Nat) (i : FrameInfo)
    (hg : hashAref h g = some i) :
    hashAref (rb_yjit_add_frame env h f) g = some i := by
  unfold rb_yjit_add_frame
  by_cases hf : (hashAref h f).isSome
  · simpa [hf]
  · simp only [if_neg hf]
    exact hashAref_append_of_some h _ g i hg

/-- Adding a frame preserves distinctness of the stored keys. -/
theorem rb_yjit_add_frame_nodup (env : ProfileEnv)
    (h : List (Nat × FrameInfo)) (f : Nat)
    (hn : (h.map Prod.fst).Nodup) :
    ((rb_yjit_add_frame env h f).map Prod.fst).Nodup := by
  unfold rb_yjit_add_frame
  by_cases hf : (hashAref h f).isSome
  · simpa [hf]
  · have hnone : hashAref h f = none := by
      cases hx : hashAref h f with
      | none => rfl
      | some i => rw [hx] at hf; simp at hf
    have hnotmem : f ∉ h.map Prod.fst := (hashAref_eq_none_iff h f).mp hnone
    simp only [if_neg hf, List.map_append, List.map_cons, List.map_nil]
    refine hn.append (List.nodup_singleton f) ?_
    intro a ha hb
    rw [List.mem_singleton] at hb
    subst hb
    exact hnotmem ha

/-- Adding a frame preserves the invariant that every stored record has both
sample counters equal to zero (a fresh record is created with both counters
zero). -/
theorem rb_yjit_add_frame_counters (env : ProfileEnv)
    (h : List (Nat × FrameInfo)) (f : Nat)
    (hz : ∀ p ∈ h, p.2.samples = 0 ∧ p.2.total_samples = 0) :
    ∀ p ∈ rb_yjit_add_frame env h f, p.2.samples = 0 ∧ p.2.total_samples = 0 := by
  unfold rb_yjit_add_frame
  by_cases hf : (hashAref h f).isSome
  · simpa [hf] using hz
  · simp only [if_neg hf]
    intro p hp
    rcases List.mem_append.mp hp with hp | hp
    · exact hz p hp
    · rw [List.mem_singleton] at hp
      subst hp
      exact ⟨rfl, rfl⟩

/-- Folding `rb_yjit_add_frame` over a list of frames makes exactly the
frames of that list present, besides the keys already stored. -/
theorem foldl_add_frame_aref_isSome (env : ProfileEnv) (l : List Nat) :
    ∀ (h : List (Nat × FrameInfo)) (g : Nat),
      (hashAref (l.foldl (rb_yjit_add_frame env) h) g).isSome
        ↔ g ∈ l ∨ (hashAref h g).isSome := by
  induction l with
  | nil => intro h g; simp
  | cons a t ih =>
    intro h g
    simp only [List.foldl_cons, List.mem_cons]
    rw [ih, rb_yjit_add_frame_aref_isSome]
    tauto

/-- Folding `rb_yjit_add_frame` over a list of frames preserves distinctness
of the stored keys. -/
theorem foldl_add_frame_nodup (env : ProfileEnv) (l : List Nat) :
    ∀ (h : List (Nat × FrameInfo)), (h.map Prod.fst).Nodup →
      ((l.foldl (rb_yjit_add_frame env) h).map Prod.fst).Nodup := by
  induction l with
  | nil => intro h hn; exact hn
  | cons a t ih =>
    intro h hn
    exact ih _ (rb_yjit_add_frame_nodup env h a hn)

/-- Folding `rb_yjit_add_frame` over a list of frames preserves the
zero-counters invariant. -/
theorem foldl_add_frame_counters (env : ProfileEnv) (l : List Nat) :
    ∀ (h : List (Nat × FrameInfo)),
      (∀ p ∈ h, p.2.samples = 0 ∧ p.2.total_samples = 0) →
      ∀ p ∈ l.foldl (rb_yjit_add_frame env) h,
        p.2.samples = 0 ∧ p.2.total_samples = 0 := by
  induction l with
  | nil => intro h hz; exact hz
  | cons a t ih =>
    intro h hz
    exact ih _ (rb_yjit_add_frame_counters env h a hz)

/-- The frames hash built by the inner loop is the fold of
`rb_yjit_add_frame` over the frame identities it visits. -/
theorem processFrames_frames (env : ProfileEnv) (raw : List Nat)
    (lines : List Int) :
    ∀ (num idx : Nat) (st : ExitLocationsDict),
      (processFrames env raw lines idx num st).frames
        = (observedInner raw idx num).foldl (rb_yjit_add_frame env) st.frames := by
  intro num
  induction num with
  | zero => intro idx st; rfl
  | succ n ih =>
    intro idx st
    simp only [processFrames, observedInner, List.foldl_cons]
    exact ih (idx + 1) _

/-- The inner loop pushes exactly `num` elements onto each of the two
parallel arrays. -/
theorem processFrames_lengths (env : ProfileEnv) (raw : List Nat)
    (lines : List Int) :
    ∀ (num idx : Nat) (st : ExitLocationsDict),
      (processFrames env raw lines idx num st).raw_samples.length
          = st.raw_samples.length + num
      ∧ (processFrames env raw lines idx num st).line_samples.length
          = st.line_samples.length + num := by
  intro num
  induction num with
  | zero => intro idx st; exact ⟨rfl, rfl⟩
  | succ n ih =>
    intro idx st
    simp only [processFrames]
    have h := ih (idx + 1)
      { frames := rb_yjit_add_frame env st.frames (raw.getD idx 0),
        raw_samples := st.raw_samples ++ [raw.getD idx 0],
        line_samples := st.line_samples ++ [lines.getD idx 0] }
    refine ⟨?_, ?_⟩
    · rw [h.1]
      simp [List.length_append]
      omega
    · rw [h.2]
      simp [List.length_append]
      omega

/-- The frames hash built by the outer loop is the fold of
`rb_yjit_add_frame` over all frame identities observed from `idx` on
(stated with an explicit bound on the remaining iteration count for the
induction). -/
theorem exitLocationsLoop_frames (env : ProfileEnv) (raw : List Nat)
    (lines : List Int) (samples_len : Nat) :
    ∀ (fuel idx : Nat) (st : ExitLocationsDict), samples_len - idx ≤ fuel →
      (exitLocationsLoop env raw lines samples_len idx st).frames
        = (observedFrames raw samples_len idx).foldl (rb_yjit_add_frame env)
            st.frames := by
  intro fuel
  induction fuel with
  | zero =>
    intro idx st hle
    have hge : ¬ idx < samples_len := by omega
    rw [exitLocationsLoop, observedFrames]
    simp [hge]
  | succ n ih =>
    intro idx st hle
    by_cases hlt : idx < samples_len
    · rw [exitLocationsLoop, observedFrames]
      simp only [if_pos hlt]
      rw [ih (idx + raw.getD idx 0 + 3) _ (by omega), List.foldl_append]
      simp only [processFrames_frames]
    · rw [exitLocationsLoop, observedFrames]
      simp [hlt]

/-- The outer loop preserves equality of the lengths of the two parallel
arrays (each iteration pushes in lockstep). -/
theorem exitLocationsLoop_lengths (env : ProfileEnv) (raw : List Nat)
    (lines : List Int) (samples_len : Nat) :
    ∀ (fuel idx : Nat) (st : ExitLocationsDict), samples_len - idx ≤ fuel →
      st.raw_samples.length = st.line_samples.length →
      (exitLocationsLoop env raw lines samples_len idx st).raw_samples.length
        = (exitLocationsLoop env raw lines samples_len idx st).line_samples.length := by
  intro fuel
  induction fuel with
  | zero =>
    intro idx st hle hst
    have hge : ¬ idx < samples_len := by omega
    rw [exitLocationsLoop]
    simp [hge, hst]
  | succ n ih =>
    intro idx st hle hst
    by_cases hlt : idx < samples_len
    · rw [exitLocationsLoop]
      simp only [if_pos hlt]
      apply ih (idx + raw.getD idx 0 + 3) _ (by omega)
      have h := processFrames_lengths env raw lines (raw.getD idx 0) (idx + 1)
        { st with raw_samples := st.raw_samples ++ [raw.getD idx 0],
                  line_samples := st.line_samples ++ [lines.getD idx 0] }
      simp only [List.length_append, h.1, h.2]
      simp [List.length_append, hst]
    · rw [exitLocationsLoop]
      simp [hlt, hst]

/-- C10: the exported `raw` sequence and `lines` sequence built by
`rb_yjit_exit_locations_dict` always have equal length — every loop
iteration pushes one element onto each in lockstep, so the two parallel
sequences never diverge in length. -/
theorem rb_yjit_exit_locations_dict_raw_lines_length (env : ProfileEnv)
    (raw : List Nat) (lines : List Int) (samples_len : Nat) :
    (rb_yjit_exit_locations_dict env raw lines samples_len).raw_samples.length
      = (rb_yjit_exit_locations_dict env raw lines samples_len).line_samples.length := by
  unfold rb_yjit_exit_locations_dict
  exact exitLocationsLoop_lengths env raw lines samples_len samples_len 0 _
    (by omega) rfl

/-- C9: the `frames` mapping exported by `rb_yjit_exit_locations_dict`
contains exactly one entry per distinct frame identity observed across all
stack samples (the stored keys are pairwise distinct and a key is present
iff it is observed), every stored record has its `samples` and
`total_samples` counters equal to zero (they are initialized to zero when a
frame is first seen and never touched again), and `rb_yjit_add_frame` never
overwrites an existing record on a later occurrence of the same frame. -/
theorem rb_yjit_exit_locations_dict_frames_spec (env : ProfileEnv)
    (raw : List Nat) (lines : List Int) (samples_len : Nat) :
    (((rb_yjit_exit_locations_dict env raw lines samples_len).frames.map
        Prod.fst).Nodup)
    ∧ (∀ f, (hashAref
          (rb_yjit_exit_locations_dict env raw lines samples_len).frames f).isSome
        ↔ f ∈ observedFrames raw samples_len 0)
    ∧ (∀ p ∈ (rb_yjit_exit_locations_dict env raw lines samples_len).frames,
        p.2.samples = 0 ∧ p.2.total_samples = 0)
    ∧ (∀ (h : List (Nat × FrameInfo)) (f g : Nat) (i : FrameInfo),
        hashAref h g = some i → hashAref (rb_yjit_add_frame env h f) g = some i) := by
  have hfr : (rb_yjit_exit_locations_dict env raw lines samples_len).frames
      = (observedFrames raw samples_len 0).foldl (rb_yjit_add_frame env) [] :=
    exitLocationsLoop_frames env raw lines samples_len samples_len 0 _ (by omega)
  refine ⟨?_, ?_, ?_, ?_⟩
  · rw [hfr]
    exact foldl_add_frame_nodup env _ [] (by simp)
  · intro f
    rw [hfr, foldl_add_frame_aref_isSome]
    simp [hashAref]
  · rw [hfr]
    exact foldl_add_frame_counters env _ [] (by simp)
  · exact fun h f g i => rb_yjit_add_frame_preserves env h f g i

/-- Concrete profiling environment used by the C9 witness: frames label as
themselves, no absolute path, and line number zero. -/
def profileEnvEx : ProfileEnv :=
  { full_label := fun f => f
    absolute_path := fun _ => none
    path := fun f => f
    first_lineno := fun _ => 0 }

/-- The record `rb_yjit_add_frame` creates for frame `5` under
`profileEnvEx`. -/
def frameInfoEx : FrameInfo :=
  { name := 5, file := 5, samples := 0, total_samples := 0,
    edges := [], line_hash := [], line := none }

/-- Witness for C9 at a concrete sample sequence: the sample record
`[2, 5, 5, 9, 3]` (stack depth 2 with frame `5` occurring twice) yields a
frames entry for `5` with both counters zero, and adding frame `7` to a
hash already binding `3` leaves the binding of `3` unchanged. -/
theorem rb_yjit_exit_locations_dict_frames_spec_witness :
    ((5, frameInfoEx).2.samples = 0 ∧ (5, frameInfoEx).2.total_samples = 0)
    ∧ hashAref (rb_yjit_add_frame profileEnvEx [(3, frameInfoEx)] 7) 3
        = some frameInfoEx :=
  ⟨(rb_yjit_exit_locations_dict_frames_spec profileEnvEx [2, 5, 5, 9, 3]
      [1, 2, 3, 4, 5] 5).2.2.1 (5, frameInfoEx)
      (by simp [rb_yjit_exit_locations_dict, exitLocationsLoop, processFrames,
        rb_yjit_add_frame, hashAref, profileEnvEx, frameInfoEx]),
   (rb_yjit_exit_locations_dict_frames_spec profileEnvEx [2, 5, 5, 9, 3]
      [1, 2, 3, 4, 5] 5).2.2.2 [(3, frameInfoEx)] 7 3 frameInfoEx rfl⟩
